import Mathlib

/-!
Shallow embedding of `src/contracts/PrivacyProfessionalCertificate.sol`.

Solidity `uint256` / `uint64` / `uint8` values are modelled as `Nat`
(Solidity 0.8 checked arithmetic never wraps; the counters and timestamps
in this contract stay far below every machine bound on all inputs of
interest).  Addresses are modelled as `Nat`, storage mappings as total
functions with the zero-value default that Solidity gives unset slots,
`revert` as `Option.none`, and an external call as `sender`/`ts`
(`msg.sender` / `block.timestamp`) arguments.  The FHE ciphertext handles
(`euint64`, `euint8`) are opaque to this contract: it only stores and
copies them, so a handle is modelled as the `Nat` it was built from.
ACL calls (`FHE.allow`, `FHE.allowThis`) live entirely in the external
library and have no effect on contract storage, so they are not modelled.
`view` functions are modelled as pure functions that return no state,
which is exactly Solidity's guarantee for `view`.
-/

namespace PrivacyCertificate

/-- Pointwise update of a `Nat`-keyed storage mapping. -/
def updNat {α : Type} (m : Nat → α) (k : Nat) (v : α) : Nat → α :=
  fun i => if i = k then v else m i

/-- Pointwise update of a `String`-keyed storage mapping. -/
def updStr {α : Type} (m : String → α) (k : String) (v : α) : String → α :=
  fun i => if i = k then v else m i

/-- Solidity struct `Certificate` (contract lines 12-22). -/
structure Certificate where
  holder : Nat
  profession : String
  encryptedScore : Nat
  encryptedLevel : Nat
  isValid : Bool
  issueDate : Nat
  expiryDate : Nat
  issuer : String
  hashedCredentials : Nat
  deriving DecidableEq

/-- Solidity struct `CertificationRequest` (contract lines 24-33). -/
structure CertificationRequest where
  applicant : Nat
  profession : String
  encryptedScore : Nat
  encryptedLevel : Nat
  isProcessed : Bool
  isApproved : Bool
  requestTime : Nat
  evidence : String
  deriving DecidableEq

/-- The zero value a Solidity mapping returns for an unset `Certificate` slot. -/
def defaultCertificate : Certificate :=
  { holder := 0, profession := "", encryptedScore := 0, encryptedLevel := 0,
    isValid := false, issueDate := 0, expiryDate := 0, issuer := "",
    hashedCredentials := 0 }

/-- The zero value a Solidity mapping returns for an unset `CertificationRequest` slot. -/
def defaultRequest : CertificationRequest :=
  { applicant := 0, profession := "", encryptedScore := 0, encryptedLevel := 0,
    isProcessed := false, isApproved := false, requestTime := 0, evidence := "" }

/-- The events the contract can emit (contract lines 44-50). -/
inductive Event where
  | CertificateIssued (certificateId holder : Nat) (profession : String)
  | CertificationRequested (requestId applicant : Nat) (profession : String)
  | CertificationApproved (requestId certificateId : Nat)
  | CertificationRejected (requestId : Nat) (reason : String)
  | CertificateRevoked (certificateId : Nat) (reason : String)
  | IssuerAuthorized (issuer : Nat) (organization : String)
  | IssuerRevoked (issuer : Nat)
  deriving DecidableEq

/-- The contract's storage variables (contract lines 9-42). -/
structure ContractState where
  owner : Nat
  nextCertificateId : Nat
  nextRequestId : Nat
  certificates : Nat → Certificate
  holderCertificates : Nat → List Nat
  certificationRequests : Nat → CertificationRequest
  authorizedIssuers : Nat → Bool
  minimumScoreRequirement : String → Nat
  minimumLevelRequirement : String → Nat

/-- Constructor (contract lines 69-86): sets the owner, starts both id
counters at 1 and pre-seeds minimum requirements for four professions. -/
def initialState (deployer : Nat) : ContractState :=
  { owner := deployer
    nextCertificateId := 1
    nextRequestId := 1
    certificates := fun _ => defaultCertificate
    holderCertificates := fun _ => []
    certificationRequests := fun _ => defaultRequest
    authorizedIssuers := fun _ => false
    minimumScoreRequirement := fun p =>
      if p = "Software Engineer" then 75
      else if p = "Data Scientist" then 80
      else if p = "Cybersecurity Specialist" then 85
      else if p = "Project Manager" then 70
      else 0
    minimumLevelRequirement := fun p =>
      if p = "Software Engineer" then 3
      else if p = "Data Scientist" then 4
      else if p = "Cybersecurity Specialist" then 4
      else if p = "Project Manager" then 3
      else 0 }

/-- Stand-in for `keccak256(abi.encodePacked(holder, profession, timestamp,
certId))` (contract lines 179-184): a computable digest of the same four
inputs.  No claim depends on any cryptographic property of the digest,
only on it being a deterministic function of these inputs. -/
def keccakCredential (holder : Nat) (profession : String) (ts certId : Nat) : Nat :=
  profession.foldl (fun a c => a * 257 + c.toNat + 1)
    (((holder * 2 ^ 64 + ts) * 2 ^ 64 + certId) * 2 ^ 64 + 1)

/-- Modifier `onlyAuthorizedIssuer` (contract lines 57-60):
`authorizedIssuers[msg.sender] || msg.sender == owner`. -/
def isAuthorizedIssuer (s : ContractState) (sender : Nat) : Bool :=
  s.authorizedIssuers sender || decide (sender = s.owner)

/-- Modifier `validCertificate` (contract lines 62-67): id in `(0, nextCertificateId]`,
validity flag set, expiry strictly in the future. -/
def validCertificate (s : ContractState) (ts certificateId : Nat) : Bool :=
  decide (0 < certificateId) && decide (certificateId ≤ s.nextCertificateId)
    && (s.certificates certificateId).isValid
    && decide (ts < (s.certificates certificateId).expiryDate)

/-- `authorizeIssuer` (contract lines 88-91), `onlyOwner`. -/
def authorizeIssuer (s : ContractState) (sender issuer : Nat) (organization : String) :
    Option (ContractState × List Event) :=
  if sender = s.owner then
    some ({ s with authorizedIssuers := updNat s.authorizedIssuers issuer true },
      [Event.IssuerAuthorized issuer organization])
  else none

/-- `revokeIssuer` (contract lines 93-96), `onlyOwner`. -/
def revokeIssuer (s : ContractState) (sender issuer : Nat) :
    Option (ContractState × List Event) :=
  if sender = s.owner then
    some ({ s with authorizedIssuers := updNat s.authorizedIssuers issuer false },
      [Event.IssuerRevoked issuer])
  else none

/-- `setProfessionRequirements` (contract lines 98-105), `onlyOwner`. -/
def setProfessionRequirements (s : ContractState) (sender : Nat)
    (profession : String) (minScore minLevel : Nat) :
    Option (ContractState × List Event) :=
  if sender = s.owner then
    some ({ s with
        minimumScoreRequirement := updStr s.minimumScoreRequirement profession minScore,
        minimumLevelRequirement := updStr s.minimumLevelRequirement profession minLevel },
      [])
  else none

/-- `requestCertification` (contract lines 107-141): validates
`score <= 100`, `level <= 10` and both strings non-empty (the four
`require`s, in source order), stores the request at `nextRequestId`,
emits `CertificationRequested` and then increments the counter.
`bytes(x).length > 0` is non-emptiness of the string. -/
def requestCertification (s : ContractState) (sender ts : Nat)
    (profession : String) (score level : Nat) (evidence : String) :
    Option (ContractState × List Event) :=
  if 100 < score then none
  else if 10 < level then none
  else if profession = "" then none
  else if evidence = "" then none
  else
    let req : CertificationRequest :=
      { applicant := sender, profession := profession,
        encryptedScore := score, encryptedLevel := level,
        isProcessed := false, isApproved := false,
        requestTime := ts, evidence := evidence }
    some ({ s with
        certificationRequests := updNat s.certificationRequests s.nextRequestId req,
        nextRequestId := s.nextRequestId + 1 },
      [Event.CertificationRequested s.nextRequestId sender profession])

/-- Private `_issueCertificate` (contract lines 171-206): stores a fresh
certificate at `nextCertificateId` with a 365-day (`365 * 86400` seconds)
validity window, appends its id to the holder's list, emits
`CertificateIssued` and increments the counter. -/
def issueCertificate (s : ContractState) (ts holder : Nat) (profession : String)
    (encScore encLevel : Nat) (issuer : String) : ContractState × List Event :=
  let cid := s.nextCertificateId
  let cert : Certificate :=
    { holder := holder, profession := profession,
      encryptedScore := encScore, encryptedLevel := encLevel,
      isValid := true, issueDate := ts, expiryDate := ts + 365 * 86400,
      issuer := issuer,
      hashedCredentials := keccakCredential holder profession ts cid }
  ({ s with
      certificates := updNat s.certificates cid cert,
      holderCertificates :=
        updNat s.holderCertificates holder (s.holderCertificates holder ++ [cid]),
      nextCertificateId := cid + 1 },
    [Event.CertificateIssued cid holder profession])

/-- `processCertificationRequest` (contract lines 143-169):
`onlyAuthorizedIssuer`; requires `0 < id < nextRequestId` and the request
unprocessed; marks it processed and approved (`isApproved = true`
unconditionally, the simplified approval stub), then issues a certificate
and emits `CertificationApproved(requestId, nextCertificateId - 1)`; the
`CertificationRejected` branch of the source is kept verbatim. -/
def processCertificationRequest (s : ContractState) (sender ts requestId : Nat)
    (issuerName : String) : Option (ContractState × List Event) :=
  if isAuthorizedIssuer s sender then
    if 0 < requestId ∧ requestId < s.nextRequestId then
      if (s.certificationRequests requestId).isProcessed then none
      else
        let req := { s.certificationRequests requestId with
                      isProcessed := true, isApproved := true }
        let s1 := { s with
                      certificationRequests := updNat s.certificationRequests requestId req }
        if req.isApproved then
          let res := issueCertificate s1 ts req.applicant req.profession
            req.encryptedScore req.encryptedLevel issuerName
          some (res.1,
            res.2 ++ [Event.CertificationApproved requestId (res.1.nextCertificateId - 1)])
        else
          let reason := "Requirements not met"
          some (s1, [Event.CertificationRejected requestId reason])
    else none
  else none

/-- `revokeCertificate` (contract lines 208-215): `onlyAuthorizedIssuer`
and `validCertificate`; clears the validity flag and emits
`CertificateRevoked`. -/
def revokeCertificate (s : ContractState) (sender ts certificateId : Nat)
    (reason : String) : Option (ContractState × List Event) :=
  if isAuthorizedIssuer s sender then
    if validCertificate s ts certificateId then
      some ({ s with
          certificates := updNat s.certificates certificateId
            { s.certificates certificateId with isValid := false } },
        [Event.CertificateRevoked certificateId reason])
    else none
  else none

/-- The tuple `verifyCertificate` returns (contract lines 221-229). -/
structure CertificateView where
  holder : Nat
  profession : String
  isValid : Bool
  issueDate : Nat
  expiryDate : Nat
  issuer : String
  credentialHash : Nat
  deriving DecidableEq

/-- `verifyCertificate` (contract lines 217-241): a `view` guarded by
`validCertificate`; returns the stored public fields. -/
def verifyCertificate (s : ContractState) (ts certificateId : Nat) :
    Option CertificateView :=
  if validCertificate s ts certificateId then
    let cert := s.certificates certificateId
    some { holder := cert.holder, profession := cert.profession,
           isValid := cert.isValid, issueDate := cert.issueDate,
           expiryDate := cert.expiryDate, issuer := cert.issuer,
           credentialHash := cert.hashedCredentials }
  else none

/-- `getHolderCertificates` (contract lines 243-249). -/
def getHolderCertificates (s : ContractState) (holder : Nat) : List Nat :=
  s.holderCertificates holder

/-- `getCertificateCount` (contract lines 251-253). -/
def getCertificateCount (s : ContractState) : Nat :=
  s.nextCertificateId - 1

/-- `getRequestCount` (contract lines 255-257). -/
def getRequestCount (s : ContractState) : Nat :=
  s.nextRequestId - 1

/-- `getProfessionRequirements` (contract lines 259-268). -/
def getProfessionRequirements (s : ContractState) (profession : String) : Nat × Nat :=
  (s.minimumScoreRequirement profession, s.minimumLevelRequirement profession)

/-- `extendCertificateValidity` (contract lines 271-277):
`onlyAuthorizedIssuer` and `validCertificate`; adds
`additionalDays * 1 days` (`1 days = 86400` seconds) to the expiry,
with no bound on `additionalDays`, and emits nothing. -/
def extendCertificateValidity (s : ContractState) (sender ts certificateId additionalDays : Nat) :
    Option (ContractState × List Event) :=
  if isAuthorizedIssuer s sender then
    if validCertificate s ts certificateId then
      some ({ s with
          certificates := updNat s.certificates certificateId
            { s.certificates certificateId with
                expiryDate := (s.certificates certificateId).expiryDate
                  + additionalDays * 86400 } },
        [])
    else none
  else none

/-- `emergencyPause` (contract lines 280-283): `onlyOwner`, empty body. -/
def emergencyPause (s : ContractState) (sender : Nat) :
    Option (ContractState × List Event) :=
  if sender = s.owner then some (s, []) else none

/-- `getEncryptedScore` (contract lines 286-299): `view` guarded by
`validCertificate` plus a caller check (holder, flagged issuer, or owner). -/
def getEncryptedScore (s : ContractState) (sender ts certificateId : Nat) : Option Nat :=
  if validCertificate s ts certificateId then
    if sender = (s.certificates certificateId).holder
        ∨ s.authorizedIssuers sender = true ∨ sender = s.owner then
      some (s.certificates certificateId).encryptedScore
    else none
  else none

/-- `getEncryptedLevel` (contract lines 302-315): same gating as
`getEncryptedScore`, returning the level handle. -/
def getEncryptedLevel (s : ContractState) (sender ts certificateId : Nat) : Option Nat :=
  if validCertificate s ts certificateId then
    if sender = (s.certificates certificateId).holder
        ∨ s.authorizedIssuers sender = true ∨ sender = s.owner then
      some (s.certificates certificateId).encryptedLevel
    else none
  else none

/-- One external transaction against the contract: every state-mutating
entry point, tagged with its `msg.sender` and `block.timestamp`. -/
inductive Tx where
  | requestCertification (sender ts : Nat) (profession : String)
      (score level : Nat) (evidence : String)
  | processCertificationRequest (sender ts requestId : Nat) (issuerName : String)
  | revokeCertificate (sender ts certificateId : Nat) (reason : String)
  | extendCertificateValidity (sender ts certificateId additionalDays : Nat)
  | authorizeIssuer (sender issuer : Nat) (organization : String)
  | revokeIssuer (sender issuer : Nat)
  | setProfessionRequirements (sender : Nat) (profession : String) (minScore minLevel : Nat)
  | emergencyPause (sender : Nat)

/-- Dispatch a transaction to the entry point it names. -/
def applyTx (s : ContractState) : Tx → Option (ContractState × List Event)
  | Tx.requestCertification sender ts profession score level evidence =>
      requestCertification s sender ts profession score level evidence
  | Tx.processCertificationRequest sender ts requestId issuerName =>
      processCertificationRequest s sender ts requestId issuerName
  | Tx.revokeCertificate sender ts certificateId reason =>
      revokeCertificate s sender ts certificateId reason
  | Tx.extendCertificateValidity sender ts certificateId additionalDays =>
      extendCertificateValidity s sender ts certificateId additionalDays
  | Tx.authorizeIssuer sender issuer organization =>
      authorizeIssuer s sender issuer organization
  | Tx.revokeIssuer sender issuer => revokeIssuer s sender issuer
  | Tx.setProfessionRequirements sender profession minScore minLevel =>
      setProfessionRequirements s sender profession minScore minLevel
  | Tx.emergencyPause sender => emergencyPause s sender

/-- The state after a transaction: a revert (`none`) rolls everything back. -/
def stepState (s : ContractState) (tx : Tx) : ContractState :=
  match applyTx s tx with
  | some (s', _) => s'
  | none => s

/-- The events a transaction emits (none on revert). -/
def eventsOf (s : ContractState) (tx : Tx) : List Event :=
  match applyTx s tx with
  | some (_, evs) => evs
  | none => []

/-- The state after a whole sequence of transactions. -/
def runTxs (s : ContractState) (txs : List Tx) : ContractState :=
  txs.foldl stepState s

/-- A state the deployed contract can actually be in: the constructor's
state, or any state one transaction away from a reachable one. -/
inductive Reachable : ContractState → Prop where
  | init (deployer : Nat) : Reachable (initialState deployer)
  | step (tx : Tx) {s : ContractState} : Reachable s → Reachable (stepState s tx)

/-- The request id carried by a `CertificationRequested` event, if any. -/
def requestedIdOf : Event → Option Nat
  | Event.CertificationRequested rid _ _ => some rid
  | _ => none

/-- The certificate id carried by a `CertificateIssued` event, if any. -/
def issuedIdOf : Event → Option Nat
  | Event.CertificateIssued cid _ _ => some cid
  | _ => none

/-- The request ids handed out (via `CertificationRequested` events) along a
transaction sequence starting from `s`, in order. -/
def assignedRequestIds (s : ContractState) : List Tx → List Nat
  | [] => []
  | tx :: txs =>
      (eventsOf s tx).filterMap requestedIdOf ++ assignedRequestIds (stepState s tx) txs

/-- The certificate ids handed out (via `CertificateIssued` events) along a
transaction sequence starting from `s`, in order. -/
def assignedCertificateIds (s : ContractState) : List Tx → List Nat
  | [] => []
  | tx :: txs =>
      (eventsOf s tx).filterMap issuedIdOf ++ assignedCertificateIds (stepState s tx) txs

/-- Storage invariant of the deployed contract: the certificate id counter
starts at 1 and every certificate slot that was never written by
`_issueCertificate` (slot 0 and every slot at or beyond `nextCertificateId`)
still holds the zero value, whose validity flag is false. -/
def certSlotsInv (s : ContractState) : Prop :=
  1 ≤ s.nextCertificateId ∧
  ∀ cid, cid = 0 ∨ s.nextCertificateId ≤ cid → (s.certificates cid).isValid = false

/-- Sample deployment by address 0, used by the concrete witnesses below. -/
def sampleState0 : ContractState := initialState 0

/-- Sample state after address 1 submits a valid certification request. -/
def sampleState1 : ContractState :=
  stepState sampleState0 (Tx.requestCertification 1 100 "Software Engineer" 80 4 "portfolio-link")

/-- Sample state after the owner processes request 1, issuing certificate 1. -/
def sampleState2 : ContractState :=
  stepState sampleState1 (Tx.processCertificationRequest 0 200 1 "Acme Certifiers")

/-- Sample state after the owner revokes certificate 1. -/
def sampleState3 : ContractState :=
  stepState sampleState2 (Tx.revokeCertificate 0 300 1 "policy violation")

/-- A reverted transaction leaves the state unchanged. -/
theorem stepState_of_none {s : ContractState} {tx : Tx} (h : applyTx s tx = none) :
    stepState s tx = s := by
  simp [stepState, h]

/-- A successful transaction moves the state to the returned one. -/
theorem stepState_of_some {s s' : ContractState} {evs : List Event} {tx : Tx}
    (h : applyTx s tx = some (s', evs)) : stepState s tx = s' := by
  simp [stepState, h]

/-- A reverted transaction emits nothing. -/
theorem eventsOf_of_none {s : ContractState} {tx : Tx} (h : applyTx s tx = none) :
    eventsOf s tx = [] := by
  simp [eventsOf, h]

theorem sampleState1_reachable : Reachable sampleState1 :=
  Reachable.step _ (Reachable.init 0)

theorem sampleState2_reachable : Reachable sampleState2 :=
  Reachable.step _ sampleState1_reachable

theorem sampleState3_reachable : Reachable sampleState3 :=
  Reachable.step _ sampleState2_reachable

/-- C10: `emergencyPause` called by the owner succeeds, leaves every storage
field unchanged (it returns the very same state) and emits no event: the
function body is empty, so the call is a no-op. -/
theorem emergencyPause_noop (s : ContractState) :
    emergencyPause s s.owner = some (s, []) := by
  simp [emergencyPause]

/-- C5: a caller that is not the owner cannot mutate issuer authorization or
profession requirements (those calls revert and the state is unchanged), and
a caller that is neither a flagged issuer nor the owner cannot process
requests, revoke certificates or extend validity (those calls revert and the
state is unchanged). -/
theorem access_control_guards (s : ContractState) (sender : Nat) :
    (sender ≠ s.owner →
      (∀ issuer org, authorizeIssuer s sender issuer org = none ∧
        stepState s (Tx.authorizeIssuer sender issuer org) = s) ∧
      (∀ issuer, revokeIssuer s sender issuer = none ∧
        stepState s (Tx.revokeIssuer sender issuer) = s) ∧
      (∀ p ms ml, setProfessionRequirements s sender p ms ml = none ∧
        stepState s (Tx.setProfessionRequirements sender p ms ml) = s)) ∧
    (s.authorizedIssuers sender = false → sender ≠ s.owner →
      (∀ ts rid nm, processCertificationRequest s sender ts rid nm = none ∧
        stepState s (Tx.processCertificationRequest sender ts rid nm) = s) ∧
      (∀ ts cid r, revokeCertificate s sender ts cid r = none ∧
        stepState s (Tx.revokeCertificate sender ts cid r) = s) ∧
      (∀ ts cid d, extendCertificateValidity s sender ts cid d = none ∧
        stepState s (Tx.extendCertificateValidity sender ts cid d) = s)) := by
  constructor
  · intro hno
    refine ⟨fun issuer org => ?_, fun issuer => ?_, fun p ms ml => ?_⟩ <;>
      simp [authorizeIssuer, revokeIssuer, setProfessionRequirements, hno,
        stepState, applyTx]
  · intro hflag hno
    have hni : isAuthorizedIssuer s sender = false := by
      simp [isAuthorizedIssuer, hflag, hno]
    refine ⟨fun ts rid nm => ?_, fun ts cid r => ?_, fun ts cid d => ?_⟩ <;>
      simp [processCertificationRequest, revokeCertificate, extendCertificateValidity,
        hni, stepState, applyTx]

/-- C5 witness: address 1 is neither the owner nor a flagged issuer of the
fresh deployment, and each of the six guarded calls reverts there. -/
theorem access_control_guards_witness :
    ((1 : Nat) ≠ sampleState0.owner ∧ sampleState0.authorizedIssuers 1 = false) ∧
    authorizeIssuer sampleState0 1 2 "Acme" = none ∧
    revokeIssuer sampleState0 1 2 = none ∧
    setProfessionRequirements sampleState0 1 "Auditor" 50 2 = none ∧
    processCertificationRequest sampleState0 1 100 1 "Acme" = none ∧
    revokeCertificate sampleState0 1 100 1 "r" = none ∧
    extendCertificateValidity sampleState0 1 100 1 30 = none := by
  have h := access_control_guards sampleState0 1
  exact ⟨⟨by decide, by decide⟩,
    ((h.1 (by decide)).1 2 "Acme").1,
    ((h.1 (by decide)).2.1 2).1,
    ((h.1 (by decide)).2.2 "Auditor" 50 2).1,
    ((h.2 (by decide) (by decide)).1 100 1 "Acme").1,
    ((h.2 (by decide) (by decide)).2.1 100 1 "r").1,
    ((h.2 (by decide) (by decide)).2.2 100 1 30).1⟩

/-- C6: `requestCertification` succeeds exactly when `score ≤ 100`,
`level ≤ 10` and both the profession and the evidence strings are
non-empty; on any validation failure it reverts, stores nothing, emits
nothing, and `getRequestCount` is unchanged. -/
theorem requestCertification_validation (s : ContractState) (sender ts : Nat)
    (profession : String) (score level : Nat) (evidence : String) :
    ((requestCertification s sender ts profession score level evidence).isSome ↔
      (score ≤ 100 ∧ level ≤ 10 ∧ profession ≠ "" ∧ evidence ≠ "")) ∧
    (¬ (score ≤ 100 ∧ level ≤ 10 ∧ profession ≠ "" ∧ evidence ≠ "") →
      requestCertification s sender ts profession score level evidence = none ∧
      stepState s (Tx.requestCertification sender ts profession score level evidence) = s ∧
      eventsOf s (Tx.requestCertification sender ts profession score level evidence) = [] ∧
      getRequestCount
          (stepState s (Tx.requestCertification sender ts profession score level evidence))
        = getRequestCount s) := by
  have hiff : (requestCertification s sender ts profession score level evidence).isSome ↔
      (score ≤ 100 ∧ level ≤ 10 ∧ profession ≠ "" ∧ evidence ≠ "") := by
    unfold requestCertification
    split_ifs with h1 h2 h3 h4 <;> simp_all
  refine ⟨hiff, fun hnot => ?_⟩
  have hnone : requestCertification s sender ts profession score level evidence = none := by
    cases h : requestCertification s sender ts profession score level evidence with
    | none => rfl
    | some v => exact absurd (hiff.mp (by simp [h])) hnot
  have hstep : stepState s (Tx.requestCertification sender ts profession score level evidence)
      = s := stepState_of_none (by simpa [applyTx] using hnone)
  exact ⟨hnone, hstep, eventsOf_of_none (by simpa [applyTx] using hnone), by rw [hstep]⟩

/-- C6 witness: a submission with `score = 150` fails validation on the
fresh deployment and leaves the request count unchanged. -/
theorem requestCertification_validation_witness :
    ¬ ((150 : Nat) ≤ 100 ∧ (4 : Nat) ≤ 10 ∧ "Software Engineer" ≠ "" ∧
        "portfolio-link" ≠ "") ∧
    requestCertification sampleState0 1 100 "Software Engineer" 150 4 "portfolio-link"
      = none ∧
    getRequestCount
        (stepState sampleState0
          (Tx.requestCertification 1 100 "Software Engineer" 150 4 "portfolio-link"))
      = getRequestCount sampleState0 := by
  have h := requestCertification_validation sampleState0 1 100 "Software Engineer"
    150 4 "portfolio-link"
  have hnot : ¬ ((150 : Nat) ≤ 100 ∧ (4 : Nat) ≤ 10 ∧ "Software Engineer" ≠ "" ∧
      "portfolio-link" ≠ "") := by decide
  exact ⟨hnot, (h.2 hnot).1, (h.2 hnot).2.2.2⟩

/-- C8: an authorized-issuer extension of a valid, unexpired certificate adds
exactly `additionalDays * 86400` seconds to its expiry, for every
`additionalDays` (no upper bound is enforced), emitting nothing; and every
certificate is issued with `issueDate` equal to the call's timestamp and
`expiryDate` equal to that timestamp plus 365 days. -/
theorem extendValidity_adds_days (s : ContractState)
    (sender ts certificateId additionalDays : Nat)
    (hauth : isAuthorizedIssuer s sender = true)
    (hvalid : validCertificate s ts certificateId = true) :
    (extendCertificateValidity s sender ts certificateId additionalDays
        = some (stepState s
            (Tx.extendCertificateValidity sender ts certificateId additionalDays), []) ∧
      ((stepState s
          (Tx.extendCertificateValidity sender ts certificateId additionalDays)).certificates
            certificateId).expiryDate
        = (s.certificates certificateId).expiryDate + additionalDays * 86400 ∧
      ((stepState s
          (Tx.extendCertificateValidity sender ts certificateId additionalDays)).certificates
            certificateId).isValid
        = (s.certificates certificateId).isValid) ∧
    (∀ s0 ts0 holder profession encScore encLevel issuer,
      ((issueCertificate s0 ts0 holder profession encScore encLevel issuer).1.certificates
          s0.nextCertificateId).issueDate = ts0 ∧
      ((issueCertificate s0 ts0 holder profession encScore encLevel issuer).1.certificates
          s0.nextCertificateId).expiryDate = ts0 + 365 * 86400) := by
  refine ⟨⟨?_, ?_, ?_⟩, ?_⟩
  · simp [stepState, applyTx, extendCertificateValidity, hauth, hvalid]
  · simp [stepState, applyTx, extendCertificateValidity, hauth, hvalid, updNat]
  · simp [stepState, applyTx, extendCertificateValidity, hauth, hvalid, updNat]
  · intro s0 ts0 holder profession encScore encLevel issuer
    constructor <;> simp [issueCertificate, updNat]

/-- C8 witness: the owner extends the freshly issued certificate 1 by 30
days and its expiry moves from `200 + 365 * 86400` to exactly
`200 + 365 * 86400 + 30 * 86400`. -/
theorem extendValidity_adds_days_witness :
    isAuthorizedIssuer sampleState2 0 = true ∧
    validCertificate sampleState2 300 1 = true ∧
    extendCertificateValidity sampleState2 0 300 1 30
      = some (stepState sampleState2 (Tx.extendCertificateValidity 0 300 1 30), []) ∧
    ((stepState sampleState2 (Tx.extendCertificateValidity 0 300 1 30)).certificates
        1).expiryDate
      = (sampleState2.certificates 1).expiryDate + 30 * 86400 :=
  have h := extendValidity_adds_days sampleState2 0 300 1 30 (by decide) (by decide)
  ⟨by decide, by decide, h.1.1, h.1.2.1⟩

/-- C1: an authorized issuer (or the owner) processing an existing, pending
request unconditionally approves it: the request is marked processed and
approved, a certificate carrying the request's encrypted score and level
handles is minted for the applicant with `issueDate` equal to the call's
timestamp, the certificate id is appended to the applicant's list, the call
emits `CertificateIssued` followed by `CertificationApproved(requestId,
certificateId)` naming the just-issued certificate, and no
`CertificationRejected` event is ever emitted. -/
theorem process_unconditional_approval (s : ContractState)
    (sender ts requestId : Nat) (issuerName : String)
    (hauth : isAuthorizedIssuer s sender = true)
    (hrange : 0 < requestId ∧ requestId < s.nextRequestId)
    (hpending : (s.certificationRequests requestId).isProcessed = false) :
    processCertificationRequest s sender ts requestId issuerName =
      some (stepState s (Tx.processCertificationRequest sender ts requestId issuerName),
        [Event.CertificateIssued s.nextCertificateId
           (s.certificationRequests requestId).applicant
           (s.certificationRequests requestId).profession,
         Event.CertificationApproved requestId s.nextCertificateId]) ∧
    (((stepState s
        (Tx.processCertificationRequest sender ts requestId issuerName)).certificationRequests
          requestId).isProcessed = true ∧
     ((stepState s
        (Tx.processCertificationRequest sender ts requestId issuerName)).certificationRequests
          requestId).isApproved = true) ∧
    ((stepState s
        (Tx.processCertificationRequest sender ts requestId issuerName)).certificates
          s.nextCertificateId).encryptedScore
      = (s.certificationRequests requestId).encryptedScore ∧
    ((stepState s
        (Tx.processCertificationRequest sender ts requestId issuerName)).certificates
          s.nextCertificateId).encryptedLevel
      = (s.certificationRequests requestId).encryptedLevel ∧
    ((stepState s
        (Tx.processCertificationRequest sender ts requestId issuerName)).certificates
          s.nextCertificateId).issueDate = ts ∧
    ((stepState s
        (Tx.processCertificationRequest sender ts requestId issuerName)).certificates
          s.nextCertificateId).isValid = true ∧
    ((stepState s
        (Tx.processCertificationRequest sender ts requestId issuerName)).certificates
          s.nextCertificateId).holder
      = (s.certificationRequests requestId).applicant ∧
    (stepState s
        (Tx.processCertificationRequest sender ts requestId issuerName)).holderCertificates
          (s.certificationRequests requestId).applicant
      = s.holderCertificates (s.certificationRequests requestId).applicant
          ++ [s.nextCertificateId] ∧
    (∀ r reason,
      Event.CertificationRejected r reason ∉
        eventsOf s (Tx.processCertificationRequest sender ts requestId issuerName)) := by
  refine ⟨?_, ⟨?_, ?_⟩, ?_, ?_, ?_, ?_, ?_, ?_, ?_⟩ <;>
    simp [stepState, processCertificationRequest, issueCertificate, eventsOf, applyTx,
      hauth, hrange.1, hrange.2, hpending, updNat]

/-- C1 witness: the owner processes the pending request 1 of the sample
deployment; the guards hold there and the approval conclusion follows. -/
theorem process_unconditional_approval_witness :
    isAuthorizedIssuer sampleState1 0 = true ∧
    (0 < 1 ∧ 1 < sampleState1.nextRequestId) ∧
    (sampleState1.certificationRequests 1).isProcessed = false ∧
    processCertificationRequest sampleState1 0 200 1 "Acme Certifiers" =
      some (stepState sampleState1 (Tx.processCertificationRequest 0 200 1 "Acme Certifiers"),
        [Event.CertificateIssued sampleState1.nextCertificateId
           (sampleState1.certificationRequests 1).applicant
           (sampleState1.certificationRequests 1).profession,
         Event.CertificationApproved 1 sampleState1.nextCertificateId]) ∧
    (∀ r reason,
      Event.CertificationRejected r reason ∉
        eventsOf sampleState1 (Tx.processCertificationRequest 0 200 1 "Acme Certifiers")) :=
  have h := process_unconditional_approval sampleState1 0 200 1 "Acme Certifiers"
    (by decide) (by decide) (by decide)
  ⟨by decide, by decide, by decide, h.1, h.2.2.2.2.2.2.2.2⟩

theorem certSlotsInv_init (deployer : Nat) : certSlotsInv (initialState deployer) := by
  refine ⟨le_refl 1, fun cid _ => ?_⟩
  simp [initialState, defaultCertificate]

theorem certSlotsInv_step {s : ContractState} (h : certSlotsInv s) (tx : Tx) :
    certSlotsInv (stepState s tx) := by
  obtain ⟨h1, h2⟩ := h
  rcases happ : applyTx s tx with _ | out
  · rw [stepState_of_none happ]
    exact ⟨h1, h2⟩
  obtain ⟨s', evs⟩ := out
  rw [stepState_of_some happ]
  cases tx with
  | requestCertification sender ts p sc lv ev =>
      simp only [applyTx, requestCertification] at happ
      split_ifs at happ
      simp only [Option.some.injEq, Prod.mk.injEq] at happ
      obtain ⟨rfl, rfl⟩ := happ
      exact ⟨h1, h2⟩
  | processCertificationRequest sender ts rid nm =>
      simp only [applyTx, processCertificationRequest] at happ
      split_ifs at happ
      simp only [Option.some.injEq, Prod.mk.injEq] at happ
      obtain ⟨rfl, rfl⟩ := happ
      refine ⟨?_, fun cid hcid => ?_⟩
      · simp [issueCertificate]
      · simp only [issueCertificate] at hcid ⊢
        have hne : cid ≠ s.nextCertificateId := by omega
        simp only [updNat, hne, if_false]
        exact h2 cid (by omega)
  | revokeCertificate sender ts cid0 reason =>
      simp only [applyTx, revokeCertificate] at happ
      split_ifs at happ
      simp only [Option.some.injEq, Prod.mk.injEq] at happ
      obtain ⟨rfl, rfl⟩ := happ
      refine ⟨h1, fun cid hcid => ?_⟩
      simp only [updNat]
      by_cases hne : cid = cid0
      · simp [hne]
      · simp only [hne, if_false]
        exact h2 cid hcid
  | extendCertificateValidity sender ts cid0 days =>
      simp only [applyTx, extendCertificateValidity] at happ
      split_ifs at happ
      simp only [Option.some.injEq, Prod.mk.injEq] at happ
      obtain ⟨rfl, rfl⟩ := happ
      refine ⟨h1, fun cid hcid => ?_⟩
      simp only [updNat]
      by_cases hne : cid = cid0
      · subst hne
        simpa using h2 cid hcid
      · simp only [hne, if_false]
        exact h2 cid hcid
  | authorizeIssuer sender issuer org =>
      simp only [applyTx, authorizeIssuer] at happ
      split_ifs at happ
      simp only [Option.some.injEq, Prod.mk.injEq] at happ
      obtain ⟨rfl, rfl⟩ := happ
      exact ⟨h1, h2⟩
  | revokeIssuer sender issuer =>
      simp only [applyTx, revokeIssuer] at happ
      split_ifs at happ
      simp only [Option.some.injEq, Prod.mk.injEq] at happ
      obtain ⟨rfl, rfl⟩ := happ
      exact ⟨h1, h2⟩
  | setProfessionRequirements sender p ms ml =>
      simp only [applyTx, setProfessionRequirements] at happ
      split_ifs at happ
      simp only [Option.some.injEq, Prod.mk.injEq] at happ
      obtain ⟨rfl, rfl⟩ := happ
      exact ⟨h1, h2⟩
  | emergencyPause sender =>
      simp only [applyTx, emergencyPause] at happ
      split_ifs at happ
      simp only [Option.some.injEq, Prod.mk.injEq] at happ
      obtain ⟨rfl, rfl⟩ := happ
      exact ⟨h1, h2⟩

theorem reachable_certSlotsInv {s : ContractState} (hs : Reachable s) : certSlotsInv s := by
  induction hs with
  | init deployer => exact certSlotsInv_init deployer
  | step tx _ ih => exact certSlotsInv_step ih tx

/-- C3: in every reachable state, `verifyCertificate` reverts on an id that
is 0 or beyond the last assigned certificate id, on an invalidated
certificate, and on one whose expiry is not strictly in the future; on a
valid, unexpired certificate it returns exactly the stored fields.  It is a
`view`, modelled as a pure function with no state output, so it changes no
state. -/
theorem verifyCertificate_spec (s : ContractState) (hs : Reachable s) (ts cid : Nat) :
    ((cid = 0 ∨ s.nextCertificateId ≤ cid) → verifyCertificate s ts cid = none) ∧
    ((s.certificates cid).isValid = false → verifyCertificate s ts cid = none) ∧
    ((s.certificates cid).expiryDate ≤ ts → verifyCertificate s ts cid = none) ∧
    ((s.certificates cid).isValid = true → ts < (s.certificates cid).expiryDate →
      verifyCertificate s ts cid =
        some { holder := (s.certificates cid).holder,
               profession := (s.certificates cid).profession,
               isValid := (s.certificates cid).isValid,
               issueDate := (s.certificates cid).issueDate,
               expiryDate := (s.certificates cid).expiryDate,
               issuer := (s.certificates cid).issuer,
               credentialHash := (s.certificates cid).hashedCredentials }) := by
  have inv := reachable_certSlotsInv hs
  have hfail : (s.certificates cid).isValid = false → verifyCertificate s ts cid = none := by
    intro hfalse
    simp [verifyCertificate, validCertificate, hfalse]
  refine ⟨fun hcid => hfail (inv.2 cid hcid), hfail, ?_, ?_⟩
  · intro hexp
    simp [verifyCertificate, validCertificate]
    omega
  · intro hvalid hexp
    have hrange : 0 < cid ∧ cid ≤ s.nextCertificateId := by
      by_contra hc
      have : cid = 0 ∨ s.nextCertificateId ≤ cid := by omega
      rw [inv.2 cid this] at hvalid
      exact Bool.false_ne_true hvalid
    simp [verifyCertificate, validCertificate, hvalid, hrange.1, hrange.2, hexp]

/-- C3 witness: in the sample state with issued certificate 1, ids 0 and 2
revert, a past-expiry timestamp reverts, and a fresh timestamp returns the
stored fields; after revocation (sample state 3) id 1 reverts too. -/
theorem verifyCertificate_spec_witness :
    Reachable sampleState2 ∧
    verifyCertificate sampleState2 300 0 = none ∧
    verifyCertificate sampleState2 300 2 = none ∧
    verifyCertificate sampleState2 (200 + 365 * 86400) 1 = none ∧
    verifyCertificate sampleState2 300 1 =
      some { holder := (sampleState2.certificates 1).holder,
             profession := (sampleState2.certificates 1).profession,
             isValid := (sampleState2.certificates 1).isValid,
             issueDate := (sampleState2.certificates 1).issueDate,
             expiryDate := (sampleState2.certificates 1).expiryDate,
             issuer := (sampleState2.certificates 1).issuer,
             credentialHash := (sampleState2.certificates 1).hashedCredentials } ∧
    verifyCertificate sampleState3 400 1 = none :=
  ⟨sampleState2_reachable,
    (verifyCertificate_spec sampleState2 sampleState2_reachable 300 0).1 (Or.inl rfl),
    (verifyCertificate_spec sampleState2 sampleState2_reachable 300 2).1 (Or.inr (by decide)),
    (verifyCertificate_spec sampleState2 sampleState2_reachable (200 + 365 * 86400) 1).2.2.1
      (by decide),
    (verifyCertificate_spec sampleState2 sampleState2_reachable 300 1).2.2.2
      (by decide) (by decide),
    (verifyCertificate_spec sampleState3 sampleState3_reachable 400 1).2.1 (by decide)⟩

/-- C9: in every reachable state, `getEncryptedScore` and
`getEncryptedLevel` succeed exactly when the certificate is valid and
unexpired and the caller is its holder, a flagged authorized issuer, or the
owner; every other call reverts and returns no handle. -/
theorem encrypted_handle_access (s : ContractState) (hs : Reachable s)
    (sender ts cid : Nat) :
    ((getEncryptedScore s sender ts cid).isSome ↔
      ((s.certificates cid).isValid = true ∧ ts < (s.certificates cid).expiryDate ∧
       (sender = (s.certificates cid).holder ∨ s.authorizedIssuers sender = true ∨
        sender = s.owner))) ∧
    ((getEncryptedLevel s sender ts cid).isSome ↔
      ((s.certificates cid).isValid = true ∧ ts < (s.certificates cid).expiryDate ∧
       (sender = (s.certificates cid).holder ∨ s.authorizedIssuers sender = true ∨
        sender = s.owner))) := by
  have inv := reachable_certSlotsInv hs
  have hv : validCertificate s ts cid = true ↔
      ((s.certificates cid).isValid = true ∧ ts < (s.certificates cid).expiryDate) := by
    constructor
    · intro h
      simp only [validCertificate, Bool.and_eq_true, decide_eq_true_eq] at h
      exact ⟨h.1.2, h.2⟩
    · intro ⟨hvalid, hexp⟩
      have hrange : 0 < cid ∧ cid ≤ s.nextCertificateId := by
        by_contra hc
        have : cid = 0 ∨ s.nextCertificateId ≤ cid := by omega
        rw [inv.2 cid this] at hvalid
        exact Bool.false_ne_true hvalid
      simp [validCertificate, hvalid, hexp, hrange.1, hrange.2]
  constructor
  · unfold getEncryptedScore
    split_ifs with hvc hacl
    · simpa using ⟨(hv.mp hvc).1, (hv.mp hvc).2, hacl⟩
    · simp only [Option.isSome_none, Bool.false_eq_true, false_iff]
      intro hc
      exact hacl hc.2.2
    · simp only [Option.isSome_none, Bool.false_eq_true, false_iff]
      intro hc
      exact hvc (hv.mpr ⟨hc.1, hc.2.1⟩)
  · unfold getEncryptedLevel
    split_ifs with hvc hacl
    · simpa using ⟨(hv.mp hvc).1, (hv.mp hvc).2, hacl⟩
    · simp only [Option.isSome_none, Bool.false_eq_true, false_iff]
      intro hc
      exact hacl hc.2.2
    · simp only [Option.isSome_none, Bool.false_eq_true, false_iff]
      intro hc
      exact hvc (hv.mpr ⟨hc.1, hc.2.1⟩)

/-- C9 witness: in the sample state, the holder (address 1) and the owner
(address 0) can read both handles of certificate 1, while the stranger
address 2 cannot. -/
theorem encrypted_handle_access_witness :
    Reachable sampleState2 ∧
    (getEncryptedScore sampleState2 1 300 1).isSome = true ∧
    (getEncryptedLevel sampleState2 0 300 1).isSome = true ∧
    (getEncryptedScore sampleState2 2 300 1).isSome = false ∧
    (getEncryptedLevel sampleState2 2 300 1).isSome = false := by
  have hholder := (encrypted_handle_access sampleState2 sampleState2_reachable 1 300 1).1
  have howner := (encrypted_handle_access sampleState2 sampleState2_reachable 0 300 1).2
  have hstranger := encrypted_handle_access sampleState2 sampleState2_reachable 2 300 1
  refine ⟨sampleState2_reachable, ?_, ?_, ?_, ?_⟩
  · exact hholder.mpr ⟨by decide, by decide, Or.inl (by decide)⟩
  · exact howner.mpr ⟨by decide, by decide, Or.inr (Or.inr (by decide))⟩
  · have : ¬ (getEncryptedScore sampleState2 2 300 1).isSome = true := by
      rw [hstranger.1]
      decide
    simpa using this
  · have : ¬ (getEncryptedLevel sampleState2 2 300 1).isSome = true := by
      rw [hstranger.2]
      decide
    simpa using this

/-- One transaction can neither clear the processed flag of a request that
is already processed nor shrink the request id counter past it. -/
theorem processed_request_preserved {s : ContractState} {rid : Nat} (tx : Tx)
    (hlt : rid < s.nextRequestId)
    (hp : (s.certificationRequests rid).isProcessed = true) :
    rid < (stepState s tx).nextRequestId ∧
    ((stepState s tx).certificationRequests rid).isProcessed = true := by
  rcases happ : applyTx s tx with _ | out
  · rw [stepState_of_none happ]
    exact ⟨hlt, hp⟩
  obtain ⟨s', evs⟩ := out
  rw [stepState_of_some happ]
  cases tx with
  | requestCertification sender ts p sc lv ev =>
      simp only [applyTx, requestCertification] at happ
      split_ifs at happ
      simp only [Option.some.injEq, Prod.mk.injEq] at happ
      obtain ⟨rfl, rfl⟩ := happ
      refine ⟨by simp; omega, ?_⟩
      have hne : rid ≠ s.nextRequestId := by omega
      simp only [updNat, hne, if_false]
      exact hp
  | processCertificationRequest sender ts rid0 nm =>
      simp only [applyTx, processCertificationRequest] at happ
      split_ifs at happ
      simp only [Option.some.injEq, Prod.mk.injEq] at happ
      obtain ⟨rfl, rfl⟩ := happ
      refine ⟨by simpa [issueCertificate] using hlt, ?_⟩
      simp only [issueCertificate, updNat]
      by_cases hne : rid = rid0
      · simp [hne]
      · simp only [hne, if_false]
        exact hp
  | revokeCertificate sender ts cid0 reason =>
      simp only [applyTx, revokeCertificate] at happ
      split_ifs at happ
      simp only [Option.some.injEq, Prod.mk.injEq] at happ
      obtain ⟨rfl, rfl⟩ := happ
      exact ⟨hlt, hp⟩
  | extendCertificateValidity sender ts cid0 days =>
      simp only [applyTx, extendCertificateValidity] at happ
      split_ifs at happ
      simp only [Option.some.injEq, Prod.mk.injEq] at happ
      obtain ⟨rfl, rfl⟩ := happ
      exact ⟨hlt, hp⟩
  | authorizeIssuer sender issuer org =>
      simp only [applyTx, authorizeIssuer] at happ
      split_ifs at happ
      simp only [Option.some.injEq, Prod.mk.injEq] at happ
      obtain ⟨rfl, rfl⟩ := happ
      exact ⟨hlt, hp⟩
  | revokeIssuer sender issuer =>
      simp only [applyTx, revokeIssuer] at happ
      split_ifs at happ
      simp only [Option.some.injEq, Prod.mk.injEq] at happ
      obtain ⟨rfl, rfl⟩ := happ
      exact ⟨hlt, hp⟩
  | setProfessionRequirements sender p ms ml =>
      simp only [applyTx, setProfessionRequirements] at happ
      split_ifs at happ
      simp only [Option.some.injEq, Prod.mk.injEq] at happ
      obtain ⟨rfl, rfl⟩ := happ
      exact ⟨hlt, hp⟩
  | emergencyPause sender =>
      simp only [applyTx, emergencyPause] at happ
      split_ifs at happ
      simp only [Option.some.injEq, Prod.mk.injEq] at happ
      obtain ⟨rfl, rfl⟩ := happ
      exact ⟨hlt, hp⟩

/-- `processed_request_preserved`, extended along any transaction sequence. -/
theorem processed_request_preserved_run {s : ContractState} {rid : Nat} (txs : List Tx)
    (hlt : rid < s.nextRequestId)
    (hp : (s.certificationRequests rid).isProcessed = true) :
    rid < (runTxs s txs).nextRequestId ∧
    ((runTxs s txs).certificationRequests rid).isProcessed = true := by
  induction txs generalizing s with
  | nil => exact ⟨hlt, hp⟩
  | cons tx rest ih =>
      have h := processed_request_preserved tx hlt hp
      exact ih h.1 h.2

/-- C2: once a `processCertificationRequest` on some request id has
succeeded, every later `processCertificationRequest` on the same id — after
any interleaving of further transactions, for every caller including
authorized issuers and the owner — reverts and leaves the state (hence the
request) unchanged. -/
theorem request_processed_at_most_once (s : ContractState) (sender ts rid : Nat)
    (issuerName : String) (s2 : ContractState) (evs : List Event)
    (h : processCertificationRequest s sender ts rid issuerName = some (s2, evs))
    (txs : List Tx) (sender2 ts2 : Nat) (issuerName2 : String) :
    processCertificationRequest (runTxs s2 txs) sender2 ts2 rid issuerName2 = none ∧
    stepState (runTxs s2 txs) (Tx.processCertificationRequest sender2 ts2 rid issuerName2)
      = runTxs s2 txs := by
  have key : rid < s2.nextRequestId ∧
      (s2.certificationRequests rid).isProcessed = true := by
    simp only [processCertificationRequest] at h
    split_ifs at h with h1 h2 h3
    simp only [Option.some.injEq, Prod.mk.injEq] at h
    obtain ⟨rfl, rfl⟩ := h
    refine ⟨by simpa [issueCertificate] using h2.2, ?_⟩
    simp [issueCertificate, updNat]
  have keyr := processed_request_preserved_run txs key.1 key.2
  have hnone : processCertificationRequest (runTxs s2 txs) sender2 ts2 rid issuerName2
      = none := by
    unfold processCertificationRequest
    split_ifs with g1 g2 g3 <;> first | rfl | exact absurd keyr.2 g3
  exact ⟨hnone, stepState_of_none (by simpa [applyTx] using hnone)⟩

/-- C2 witness: processing request 1 a second time — directly after the
first processing and again after an unrelated later submission — reverts
and changes nothing. -/
theorem request_processed_at_most_once_witness :
    processCertificationRequest sampleState1 0 200 1 "Acme Certifiers"
      = some (sampleState2,
          eventsOf sampleState1 (Tx.processCertificationRequest 0 200 1 "Acme Certifiers")) ∧
    processCertificationRequest
        (runTxs sampleState2 [Tx.requestCertification 5 350 "Data Scientist" 90 5 "cv"])
        0 400 1 "Acme Certifiers" = none ∧
    stepState (runTxs sampleState2 [Tx.requestCertification 5 350 "Data Scientist" 90 5 "cv"])
        (Tx.processCertificationRequest 0 400 1 "Acme Certifiers")
      = runTxs sampleState2 [Tx.requestCertification 5 350 "Data Scientist" 90 5 "cv"] :=
  have h := request_processed_at_most_once sampleState1 0 200 1 "Acme Certifiers"
    sampleState2
    (eventsOf sampleState1 (Tx.processCertificationRequest 0 200 1 "Acme Certifiers"))
    rfl [Tx.requestCertification 5 350 "Data Scientist" 90 5 "cv"] 0 400 "Acme Certifiers"
  ⟨rfl, h.1, h.2⟩

/-- One transaction can never turn the validity flag of an already-assigned,
invalid certificate back to true, nor shrink the certificate id counter. -/
theorem invalid_cert_preserved {s : ContractState} {cid : Nat} (tx : Tx)
    (hlt : cid < s.nextCertificateId)
    (hv : (s.certificates cid).isValid = false) :
    cid < (stepState s tx).nextCertificateId ∧
    ((stepState s tx).certificates cid).isValid = false := by
  rcases happ : applyTx s tx with _ | out
  · rw [stepState_of_none happ]
    exact ⟨hlt, hv⟩
  obtain ⟨s', evs⟩ := out
  rw [stepState_of_some happ]
  cases tx with
  | requestCertification sender ts p sc lv ev =>
      simp only [applyTx, requestCertification] at happ
      split_ifs at happ
      simp only [Option.some.injEq, Prod.mk.injEq] at happ
      obtain ⟨rfl, rfl⟩ := happ
      exact ⟨hlt, hv⟩
  | processCertificationRequest sender ts rid0 nm =>
      simp only [applyTx, processCertificationRequest] at happ
      split_ifs at happ
      simp only [Option.some.injEq, Prod.mk.injEq] at happ
      obtain ⟨rfl, rfl⟩ := happ
      refine ⟨by simp [issueCertificate]; omega, ?_⟩
      simp only [issueCertificate, updNat]
      have hne : cid ≠ s.nextCertificateId := by omega
      simp only [hne, if_false]
      exact hv
  | revokeCertificate sender ts cid0 reason =>
      simp only [applyTx, revokeCertificate] at happ
      split_ifs at happ
      simp only [Option.some.injEq, Prod.mk.injEq] at happ
      obtain ⟨rfl, rfl⟩ := happ
      refine ⟨hlt, ?_⟩
      simp only [updNat]
      by_cases hne : cid = cid0
      · simp [hne]
      · simp only [hne, if_false]
        exact hv
  | extendCertificateValidity sender ts cid0 days =>
      simp only [applyTx, extendCertificateValidity] at happ
      split_ifs at happ
      simp only [Option.some.injEq, Prod.mk.injEq] at happ
      obtain ⟨rfl, rfl⟩ := happ
      refine ⟨hlt, ?_⟩
      simp only [updNat]
      by_cases hne : cid = cid0
      · subst hne
        simpa using hv
      · simp only [hne, if_false]
        exact hv
  | authorizeIssuer sender issuer org =>
      simp only [applyTx, authorizeIssuer] at happ
      split_ifs at happ
      simp only [Option.some.injEq, Prod.mk.injEq] at happ
      obtain ⟨rfl, rfl⟩ := happ
      exact ⟨hlt, hv⟩
  | revokeIssuer sender issuer =>
      simp only [applyTx, revokeIssuer] at happ
      split_ifs at happ
      simp only [Option.some.injEq, Prod.mk.injEq] at happ
      obtain ⟨rfl, rfl⟩ := happ
      exact ⟨hlt, hv⟩
  | setProfessionRequirements sender p ms ml =>
      simp only [applyTx, setProfessionRequirements] at happ
      split_ifs at happ
      simp only [Option.some.injEq, Prod.mk.injEq] at happ
      obtain ⟨rfl, rfl⟩ := happ
      exact ⟨hlt, hv⟩
  | emergencyPause sender =>
      simp only [applyTx, emergencyPause] at happ
      split_ifs at happ
      simp only [Option.some.injEq, Prod.mk.injEq] at happ
      obtain ⟨rfl, rfl⟩ := happ
      exact ⟨hlt, hv⟩

/-- `invalid_cert_preserved`, extended along any transaction sequence. -/
theorem invalid_cert_preserved_run {s : ContractState} {cid : Nat} (txs : List Tx)
    (hlt : cid < s.nextCertificateId)
    (hv : (s.certificates cid).isValid = false) :
    cid < (runTxs s txs).nextCertificateId ∧
    ((runTxs s txs).certificates cid).isValid = false := by
  induction txs generalizing s with
  | nil => exact ⟨hlt, hv⟩
  | cons tx rest ih =>
      have h := invalid_cert_preserved tx hlt hv
      exact ih h.1 h.2

/-- C4: revocation is one-directional: in any reachable state, once an
assigned certificate's validity flag is false, no sequence of further
contract operations (process/issue, revoke, extend, or any other entry
point) ever sets it back to true. -/
theorem revocation_one_directional (s : ContractState) (_hs : Reachable s) (cid : Nat)
    (hlt : cid < s.nextCertificateId)
    (hv : (s.certificates cid).isValid = false) (txs : List Tx) :
    ((runTxs s txs).certificates cid).isValid = false :=
  (invalid_cert_preserved_run txs hlt hv).2

/-- C4 witness: after revoking certificate 1 in the sample run, a further
submission, processing (issuing certificate 2) and extension attempt leave
certificate 1 invalid. -/
theorem revocation_one_directional_witness :
    Reachable sampleState3 ∧ 1 < sampleState3.nextCertificateId ∧
    (sampleState3.certificates 1).isValid = false ∧
    ((runTxs sampleState3
        [Tx.requestCertification 5 350 "Data Scientist" 90 5 "cv",
         Tx.processCertificationRequest 0 400 2 "Acme Certifiers",
         Tx.extendCertificateValidity 0 450 1 30]).certificates 1).isValid = false :=
  ⟨sampleState3_reachable, by decide, by decide,
    revocation_one_directional sampleState3 sampleState3_reachable 1 (by decide) (by decide)
      [Tx.requestCertification 5 350 "Data Scientist" 90 5 "cv",
       Tx.processCertificationRequest 0 400 2 "Acme Certifiers",
       Tx.extendCertificateValidity 0 450 1 30]⟩

/-- Any single transaction either assigns no request id (emitting no
`CertificationRequested` event and keeping the counter) or assigns exactly
the current `nextRequestId` and bumps the counter by one. -/
theorem requestIds_step (s : ContractState) (tx : Tx) :
    ((eventsOf s tx).filterMap requestedIdOf = [] ∧
      (stepState s tx).nextRequestId = s.nextRequestId) ∨
    ((eventsOf s tx).filterMap requestedIdOf = [s.nextRequestId] ∧
      (stepState s tx).nextRequestId = s.nextRequestId + 1) := by
  rcases happ : applyTx s tx with _ | out
  · left
    rw [stepState_of_none happ, eventsOf_of_none happ]
    exact ⟨rfl, rfl⟩
  obtain ⟨s', evs⟩ := out
  have hev : eventsOf s tx = evs := by simp [eventsOf, happ]
  rw [stepState_of_some happ, hev]
  cases tx with
  | requestCertification sender ts p sc lv ev =>
      right
      simp only [applyTx, requestCertification] at happ
      split_ifs at happ
      simp only [Option.some.injEq, Prod.mk.injEq] at happ
      obtain ⟨rfl, rfl⟩ := happ
      simp [requestedIdOf]
  | processCertificationRequest sender ts rid nm =>
      left
      simp only [applyTx, processCertificationRequest] at happ
      split_ifs at happ
      simp only [Option.some.injEq, Prod.mk.injEq] at happ
      obtain ⟨rfl, rfl⟩ := happ
      simp [issueCertificate, requestedIdOf]
  | revokeCertificate sender ts cid0 reason =>
      left
      simp only [applyTx, revokeCertificate] at happ
      split_ifs at happ
      simp only [Option.some.injEq, Prod.mk.injEq] at happ
      obtain ⟨rfl, rfl⟩ := happ
      simp [requestedIdOf]
  | extendCertificateValidity sender ts cid0 days =>
      left
      simp only [applyTx, extendCertificateValidity] at happ
      split_ifs at happ
      simp only [Option.some.injEq, Prod.mk.injEq] at happ
      obtain ⟨rfl, rfl⟩ := happ
      simp [requestedIdOf]
  | authorizeIssuer sender issuer org =>
      left
      simp only [applyTx, authorizeIssuer] at happ
      split_ifs at happ
      simp only [Option.some.injEq, Prod.mk.injEq] at happ
      obtain ⟨rfl, rfl⟩ := happ
      simp [requestedIdOf]
  | revokeIssuer sender issuer =>
      left
      simp only [applyTx, revokeIssuer] at happ
      split_ifs at happ
      simp only [Option.some.injEq, Prod.mk.injEq] at happ
      obtain ⟨rfl, rfl⟩ := happ
      simp [requestedIdOf]
  | setProfessionRequirements sender p ms ml =>
      left
      simp only [applyTx, setProfessionRequirements] at happ
      split_ifs at happ
      simp only [Option.some.injEq, Prod.mk.injEq] at happ
      obtain ⟨rfl, rfl⟩ := happ
      simp
  | emergencyPause sender =>
      left
      simp only [applyTx, emergencyPause] at happ
      split_ifs at happ
      simp only [Option.some.injEq, Prod.mk.injEq] at happ
      obtain ⟨rfl, rfl⟩ := happ
      simp

/-- Any single transaction either assigns no certificate id (emitting no
`CertificateIssued` event and keeping the counter) or assigns exactly the
current `nextCertificateId` and bumps the counter by one. -/
theorem certIds_step (s : ContractState) (tx : Tx) :
    ((eventsOf s tx).filterMap issuedIdOf = [] ∧
      (stepState s tx).nextCertificateId = s.nextCertificateId) ∨
    ((eventsOf s tx).filterMap issuedIdOf = [s.nextCertificateId] ∧
      (stepState s tx).nextCertificateId = s.nextCertificateId + 1) := by
  rcases happ : applyTx s tx with _ | out
  · left
    rw [stepState_of_none happ, eventsOf_of_none happ]
    exact ⟨rfl, rfl⟩
  obtain ⟨s', evs⟩ := out
  have hev : eventsOf s tx = evs := by simp [eventsOf, happ]
  rw [stepState_of_some happ, hev]
  cases tx with
  | requestCertification sender ts p sc lv ev =>
      left
      simp only [applyTx, requestCertification] at happ
      split_ifs at happ
      simp only [Option.some.injEq, Prod.mk.injEq] at happ
      obtain ⟨rfl, rfl⟩ := happ
      simp [issuedIdOf]
  | processCertificationRequest sender ts rid nm =>
      right
      simp only [applyTx, processCertificationRequest] at happ
      split_ifs at happ
      simp only [Option.some.injEq, Prod.mk.injEq] at happ
      obtain ⟨rfl, rfl⟩ := happ
      simp [issueCertificate, issuedIdOf]
  | revokeCertificate sender ts cid0 reason =>
      left
      simp only [applyTx, revokeCertificate] at happ
      split_ifs at happ
      simp only [Option.some.injEq, Prod.mk.injEq] at happ
      obtain ⟨rfl, rfl⟩ := happ
      simp [issuedIdOf]
  | extendCertificateValidity sender ts cid0 days =>
      left
      simp only [applyTx, extendCertificateValidity] at happ
      split_ifs at happ
      simp only [Option.some.injEq, Prod.mk.injEq] at happ
      obtain ⟨rfl, rfl⟩ := happ
      simp [issuedIdOf]
  | authorizeIssuer sender issuer org =>
      left
      simp only [applyTx, authorizeIssuer] at happ
      split_ifs at happ
      simp only [Option.some.injEq, Prod.mk.injEq] at happ
      obtain ⟨rfl, rfl⟩ := happ
      simp [issuedIdOf]
  | revokeIssuer sender issuer =>
      left
      simp only [applyTx, revokeIssuer] at happ
      split_ifs at happ
      simp only [Option.some.injEq, Prod.mk.injEq] at happ
      obtain ⟨rfl, rfl⟩ := happ
      simp [issuedIdOf]
  | setProfessionRequirements sender p ms ml =>
      left
      simp only [applyTx, setProfessionRequirements] at happ
      split_ifs at happ
      simp only [Option.some.injEq, Prod.mk.injEq] at happ
      obtain ⟨rfl, rfl⟩ := happ
      simp
  | emergencyPause sender =>
      left
      simp only [applyTx, emergencyPause] at happ
      split_ifs at happ
      simp only [Option.some.injEq, Prod.mk.injEq] at happ
      obtain ⟨rfl, rfl⟩ := happ
      simp

/-- The request ids assigned from any start state form the consecutive
range that begins at the state's `nextRequestId`. -/
theorem assignedRequestIds_range (txs : List Tx) :
    ∀ s, assignedRequestIds s txs
      = List.range' s.nextRequestId (assignedRequestIds s txs).length := by
  induction txs with
  | nil => intro s; rfl
  | cons tx rest ih =>
      intro s
      simp only [assignedRequestIds]
      rcases requestIds_step s tx with ⟨he, hn⟩ | ⟨he, hn⟩
      · rw [he, List.nil_append, ← hn]
        exact ih (stepState s tx)
      · rw [he, List.singleton_append, List.length_cons, List.range'_succ]
        rw [← hn]
        rw [ih (stepState s tx)]
        simp

/-- The certificate ids assigned from any start state form the consecutive
range that begins at the state's `nextCertificateId`. -/
theorem assignedCertificateIds_range (txs : List Tx) :
    ∀ s, assignedCertificateIds s txs
      = List.range' s.nextCertificateId (assignedCertificateIds s txs).length := by
  induction txs with
  | nil => intro s; rfl
  | cons tx rest ih =>
      intro s
      simp only [assignedCertificateIds]
      rcases certIds_step s tx with ⟨he, hn⟩ | ⟨he, hn⟩
      · rw [he, List.nil_append, ← hn]
        exact ih (stepState s tx)
      · rw [he, List.singleton_append, List.length_cons, List.range'_succ]
        rw [← hn]
        rw [ih (stepState s tx)]
        simp

/-- C7: from deployment, the request ids handed out along any transaction
sequence are exactly the consecutive range `1, 2, 3, …` — the first
successful submission gets id 1 and each later one a strictly larger,
previously unused id — and likewise the certificate ids handed out are
exactly `1, 2, 3, …`; both sequences are strictly increasing, hence free of
reuse. -/
theorem ids_assigned_monotonically (deployer : Nat) (txs : List Tx) :
    assignedRequestIds (initialState deployer) txs
      = List.range' 1 (assignedRequestIds (initialState deployer) txs).length ∧
    List.Pairwise (fun a b => a < b) (assignedRequestIds (initialState deployer) txs) ∧
    assignedCertificateIds (initialState deployer) txs
      = List.range' 1 (assignedCertificateIds (initialState deployer) txs).length ∧
    List.Pairwise (fun a b => a < b) (assignedCertificateIds (initialState deployer) txs) := by
  have h1 := assignedRequestIds_range txs (initialState deployer)
  have h2 := assignedCertificateIds_range txs (initialState deployer)
  have e1 : (initialState deployer).nextRequestId = 1 := rfl
  have e2 : (initialState deployer).nextCertificateId = 1 := rfl
  rw [e1] at h1
  rw [e2] at h2
  refine ⟨h1, ?_, h2, ?_⟩
  · rw [h1]
    exact List.pairwise_lt_range' 1 _
  · rw [h2]
    exact List.pairwise_lt_range' 1 _

end PrivacyCertificate
